import Mathlib

/-!
Verification of the libRad memory-primitive library against its
natural-language specification.

The development shallowly embeds the core components of the library:

* the allocator adapter (rad_allocator_traits.h) and the
  strong-exception relocation helpers (rad_object_utils.h);
* the growth-managed array rad::vector (rad_vector.h);
* the hybrid stack/heap buffer (rad_stack_or_heap_memory.h);
* the fixed and dynamic object pools (rad_memory_pool.h);
* the default allocator's equality operators (rad_default_allocator.h).

Machine integers (std::size_t) are modelled as Nat, with explicit
mod-2^64 wrapping where overflow is at issue.  Raw memory blocks are
modelled as lists of `Option`-valued slots (`none` = uninitialized /
destroyed), and pointers/cursors as natural-number addresses.
-/

namespace LibRad

/-! ## Default allocator equality (rad_default_allocator.h, lines 197-207)

`rad::default_allocator<T>` is a stateless allocator; its global
comparison operators are defined for any pair of value types. -/

/-- Model of the stateless class template `rad::default_allocator<T>`:
it has no non-static data members. -/
structure default_allocator (T : Type) where
  mk ::

/-- Embeds `operator==(const default_allocator<T>&, const default_allocator<U>&)`,
which unconditionally returns `true` (rad_default_allocator.h line 197). -/
def defaultAllocatorEq {T U : Type}
    (a : default_allocator T) (b : default_allocator U) : Bool :=
  true

/-- Embeds `operator!=(const default_allocator<T>&, const default_allocator<U>&)`,
which unconditionally returns `false` (rad_default_allocator.h line 203). -/
def defaultAllocatorNe {T U : Type}
    (a : default_allocator T) (b : default_allocator U) : Bool :=
  false

/-! ## Growth computation (rad_vector.h, lines 74-92)

`vector::compute_new_buf_count_(newDataCount)` reads the current
capacity `bufCount` and `max_size()` value `maxCount`; both are values
of the unsigned `size_type`. -/

/-- Embeds `vector::compute_new_buf_count_`: if geometric growth would
exceed `maxCount`, return `maxCount`; otherwise grow geometrically,
falling back to `newDataCount` if that is larger.  Arithmetic is over
unbounded naturals; `Nat` truncated subtraction agrees with the C++
unsigned subtraction on the executed path (see `computeNewBufCount64`). -/
def computeNewBufCount (bufCount maxCount newDataCount : ℕ) : ℕ :=
  if maxCount - bufCount / 2 < bufCount then
    maxCount
  else
    max (bufCount + bufCount / 2) newDataCount

/-- 64-bit wrapping subtraction, for operands below `2^64`;
models C++ unsigned `a - b` on `std::size_t`. -/
def wsub64 (a b : ℕ) : ℕ :=
  (a + 2 ^ 64 - b) % 2 ^ 64

/-- `compute_new_buf_count_` with every arithmetic step performed in
64-bit wrapping arithmetic, exactly as the hardware executes it. -/
def computeNewBufCount64 (bufCount maxCount newDataCount : ℕ) : ℕ :=
  if wsub64 maxCount (bufCount / 2) < bufCount then
    maxCount
  else
    max ((bufCount + bufCount / 2) % 2 ^ 64) newDataCount

/-! ## Vector cursor state and move semantics (rad_vector.h)

`vector::values_t_` holds the three cursors `dataBegin`, `dataEnd`,
`bufEnd`; addresses are modelled as naturals with `0` for `nullptr`. -/

/-- Embeds `vector::values_t_` (rad_vector.h lines 30-42): the three
cursors over the owned block. -/
structure values_t where
  dataBegin : ℕ
  dataEnd : ℕ
  bufEnd : ℕ
deriving DecidableEq, Repr

/-- Embeds `values_t_::reset()`: sets all three cursors to `nullptr`. -/
def values_t.reset : values_t :=
  ⟨0, 0, 0⟩

/-- Move assignment of the member `pair<Allocator, values_t_>`:
`rad::pair` has the implicitly-defined memberwise move assignment, and
`values_t_` is a trivially copyable struct of three raw pointers, so
pair move assignment simply copies the source cursors into the
destination. -/
def pairMoveAssignValues (dst src : values_t) : values_t :=
  src

/-- Embeds `vector::operator=(vector&&)` (rad_vector.h lines 332-343)
for `&other != this`, tracking only the cursor state of both vectors.
The body first runs `destroy_data_()` (which destroys elements and
deallocates but leaves the cursor fields untouched), then executes the
statement `data_ = std::move(data_);` literally — a move assignment of
the pair member from itself, not from `other.data_` — and finally
`other.values_().reset();`.  Returns (this-after, other-after). -/
def vectorMoveAssignValues (self other : values_t) : values_t × values_t :=
  (pairMoveAssignValues self self, values_t.reset)

/-- Embeds `vector::vector(vector&&)` (rad_vector.h lines 384-388):
`data_(std::move(other.data_))` transfers the cursors, then
`other.values_().reset();`.  Returns (this-after, other-after). -/
def vectorMoveConstructValues (other : values_t) : values_t × values_t :=
  (pairMoveAssignValues values_t.reset other, values_t.reset)

/-! ## Strong-exception relocation (rad_object_utils.h)

The per-element strategy and the bulk relocation
`uninitialized_move_strong` are compile-time dispatched on type traits
of the value type; a value type is modelled by the three trait bits the
source inspects.  Element values are naturals; a destination slot is
`none` while uninitialized or destroyed.  A source slot either still
holds its original value or has been moved from. -/

/-- The trait bits of a C++ value type that
`detail_::move_if_noexcept_construct_` and
`detail_::is_nothrow_uninitialized_movable_` inspect. -/
structure CppType where
  nothrowMoveCtor : Bool
  copyCtor : Bool
  nothrowCopyCtor : Bool
deriving DecidableEq, Repr

/-- The two per-element construction strategies an instantiation of
`move_if_noexcept_construct_` can select. -/
inductive Strategy where
  | move
  | copy
deriving DecidableEq, Repr

/-- Embeds the return-type computation of
`detail_::move_if_noexcept_construct_<To, From>` (rad_object_utils.h
lines 36-44): the result is `const From&` (a copy construction) when
`To` is not nothrow-constructible from `From&&` but is constructible
from `const From&`; otherwise it is `From&&` (a move construction). -/
def moveIfNoexceptConstruct (t : CppType) : Strategy :=
  if !t.nothrowMoveCtor && t.copyCtor then Strategy.copy else Strategy.move

/-- Embeds `detail_::is_nothrow_uninitialized_movable_` (rad_object_utils.h
lines 76-90): nothrow move-constructible or nothrow copy-constructible. -/
def isNothrowUninitializedMovable (t : CppType) : Bool :=
  t.nothrowMoveCtor || t.nothrowCopyCtor

/-- Whether the constructor selected by `moveIfNoexceptConstruct` can
throw for this value type. -/
def ctorCanThrow (t : CppType) : Bool :=
  match moveIfNoexceptConstruct t with
  | Strategy.move => !t.nothrowMoveCtor
  | Strategy.copy => !t.nothrowCopyCtor

/-- The state of one source slot after the bulk relocation. -/
inductive SrcSlot where
  | intact (v : ℕ)
  | movedFrom
deriving DecidableEq, Repr

/-- Effect of one successful construction
`T(move_if_noexcept_construct_<T>(*begin))` on the source slot:
a copy construction reads the source through `const&` and leaves it
intact; a move construction leaves it moved-from. -/
def relocSrcEffect (t : CppType) (v : ℕ) : SrcSlot :=
  match moveIfNoexceptConstruct t with
  | Strategy.copy => SrcSlot.intact v
  | Strategy.move => SrcSlot.movedFrom

/-- Effect of one THROWING construction on the source slot: a throwing
copy construction leaves the source untouched; a throwing move
construction may already have consumed it (the guarantee is waived), so
it is modelled as moved-from. -/
def failedSrcEffect (t : CppType) (v : ℕ) : SrcSlot :=
  match moveIfNoexceptConstruct t with
  | Strategy.copy => SrcSlot.intact v
  | Strategy.move => SrcSlot.movedFrom

/-- Result of the plain loop in the `if constexpr` nothrow branch of
`uninitialized_move_strong` (rad_object_utils.h lines 221-230):
destination slots constructed and source effects, in order.  In this
branch the selected constructor cannot throw. -/
def umsNothrowLoop (t : CppType) : List ℕ → List (Option ℕ) × List SrcSlot
  | [] => ([], [])
  | v :: rest =>
    let r := umsNothrowLoop t rest
    (some v :: r.1, relocSrcEffect t v :: r.2)

/-- Result of running the `try` loop of the maybe-throw branch of
`uninitialized_move_strong` (rad_object_utils.h lines 235-245) over the
source values, counting construction attempts from index `i`.  `fail`
says whether the construction attempted at a given absolute index
throws (consulted only when the selected constructor can throw). -/
structure UmsLoopOut where
  dst : List (Option ℕ)
  src : List SrcSlot
  thrownAt : Option ℕ
deriving DecidableEq, Repr

/-- The `try` loop body: construct destination slots left to right; on
the first throwing construction stop, leaving that slot and all later
slots unconstructed and all later source slots untouched. -/
def umsTryLoop (t : CppType) (fail : ℕ → Bool) :
    List ℕ → ℕ → UmsLoopOut
  | [], _ => ⟨[], [], none⟩
  | v :: rest, i =>
    if fail i && ctorCanThrow t then
      ⟨none :: rest.map (fun _ => none),
       failedSrcEffect t v :: rest.map SrcSlot.intact,
       some i⟩
    else
      let r := umsTryLoop t fail rest (i + 1)
      ⟨some v :: r.dst, relocSrcEffect t v :: r.src, r.thrownAt⟩

/-- Overall result of `uninitialized_move_strong`: final destination
slots, final source slots, and whether an exception propagated. -/
structure UmsOut where
  dst : List (Option ℕ)
  src : List SrcSlot
  threw : Bool
deriving DecidableEq, Repr

/-- Embeds `uninitialized_move_strong(begin, end, dst)`
(rad_object_utils.h lines 209-252) for a source range holding `src` and
an uninitialized destination range, parameterized by the value type's
trait bits and by which construction attempts throw.  In the
maybe-throw branch, the `catch` handler runs `destruct(dst, it)`,
destroying the destinations already constructed before rethrowing. -/
def uninitializedMoveStrong (t : CppType) (fail : ℕ → Bool)
    (src : List ℕ) : UmsOut :=
  if isNothrowUninitializedMovable t then
    let r := umsNothrowLoop t src
    ⟨r.1, r.2, false⟩
  else
    let r := umsTryLoop t fail src 0
    match r.thrownAt with
    | none => ⟨r.dst, r.src, false⟩
    | some i =>
      ⟨(r.dst.take i).map (fun _ => none) ++ r.dst.drop i, r.src, true⟩

/-! ## Raw backend reallocation

Modelled from the spec: the raw backend operation
`reallocate(block, size)` (spec section 6; `RAD_REALLOC`, implemented by
`std::realloc` in src/platform/posix/rad_memory_impl_posix.cpp) resizes
the block to exactly the requested size, preserving the leading
`min(old, new)` bytes and leaving any bytes beyond the old size
uninitialized.  The block contents are modelled; whether the block
moves in memory is left unmodelled (the resize of the physical
capacity is what the claims depend on). -/

/-- A raw `realloc` of a block to `size` units: contents preserved up
to `min (l.length) size`, the remainder uninitialized; the resulting
physical block holds exactly `size` units. -/
def rawRealloc (l : List (Option ℕ)) (size : ℕ) : List (Option ℕ) :=
  l.take size ++ List.replicate (size - l.length) none

/-! ## Allocator adapter reallocate (rad_allocator_traits.h, lines 113-233)

The fallback implementation used when the allocator supplies no
`reallocate` of its own.  A block is a list of slots; a live element is
`some v`, a destroyed or never-constructed slot is `none`. -/

/-- Result of the adapter's fallback reallocate: whether the returned
pointer is the old block, the contents of the returned block, and how
many element constructions into new storage were performed. -/
structure ReallocOut where
  sameBlock : Bool
  slots : List (Option ℕ)
  moved : ℕ
deriving DecidableEq, Repr

/-- The destruction loop `for (ptr += newCount; ptr != oldAliveEnd; ++ptr)
destroy(allocator, ptr);` applied to a block: slots with index in
`[a, b)` are destroyed. -/
def destroySlots (l : List (Option ℕ)) (a b : ℕ) : List (Option ℕ) :=
  (List.range l.length).map fun i =>
    if a ≤ i ∧ i < b then none else l.getD i none

/-- Embeds the default (element-wise) path of
`allocator_traits::reallocate` (rad_allocator_traits.h lines 174-226):
the branch taken for a non-null block when the allocator has no
`reallocate` and the value type is not trivially copyable.
Growing allocates a fresh block and relocates the `oldAliveCount` live
elements into it; shrinking destroys the live elements past `newCount`
(when any) and returns the same block unchanged. -/
def reallocateDefault (oldSlots : List (Option ℕ))
    (oldAliveCount oldCount newCount : ℕ) : ReallocOut :=
  if oldCount < newCount then
    { sameBlock := false
      slots := oldSlots.take oldAliveCount ++
        List.replicate (newCount - oldAliveCount) none
      moved := oldAliveCount }
  else
    { sameBlock := true
      slots :=
        if newCount < oldAliveCount then
          destroySlots oldSlots newCount oldAliveCount
        else oldSlots
      moved := 0 }

/-- Embeds the trivially-copyable path of `allocator_traits::reallocate`
(rad_allocator_traits.h lines 144-173): the whole call is delegated to
the raw backend `RAD_REALLOC`, which resizes the block to `newCount`
slots at the byte level. -/
def reallocateTrivial (oldSlots : List (Option ℕ)) (newCount : ℕ) :
    List (Option ℕ) :=
  rawRealloc oldSlots newCount

/-! ## Hybrid stack/heap buffer (rad_stack_or_heap_memory.h)

`stack_or_heap_memory<Size, Alignment>` holds an active pointer and an
inline byte array of `Size` bytes.  The state is modelled by the inline
storage contents plus the owned heap block, if any; `data_ !=
stackMemory_` becomes `heapData.isSome`. -/

/-- State of a `stack_or_heap_memory<N, A>`: the inline storage bytes
and, when heap-resident, the owned heap block. -/
structure StackOrHeapMemory where
  stackMemory : List (Option ℕ)
  heapData : Option (List (Option ℕ))
deriving DecidableEq, Repr

/-- Embeds `stack_or_heap_memory::is_heap()` (rad_stack_or_heap_memory.h
lines 99-102): the active pointer is not the inline storage. -/
def StackOrHeapMemory.isHeap (s : StackOrHeapMemory) : Bool :=
  s.heapData.isSome

/-- Embeds `stack_or_heap_memory::reallocate(size)`
(rad_stack_or_heap_memory.h lines 104-174) for inline capacity `N`,
on the success path (allocation failure throws and changes nothing):
heap-resident buffers always reallocate the heap block, even when
`size` would fit inline; inline-resident buffers promote to a fresh
heap block when `size > N`, copying exactly the `N` inline bytes
(`std::memcpy(newData, data_, Size)`); otherwise nothing happens. -/
def StackOrHeapMemory.reallocate (N : ℕ) (s : StackOrHeapMemory)
    (size : ℕ) : StackOrHeapMemory :=
  match s.heapData with
  | some h => { s with heapData := some (rawRealloc h size) }
  | none =>
    if N < size then
      let newData := s.stackMemory.take N ++ List.replicate (size - N) none
      { s with heapData := some newData }
    else
      s

/-! ## Object pools (rad_memory_pool.h)

A pool slot is identified by its index within its block.  The free
list is intrusive: each free slot stores the address of the next free
slot (or null).  For the fixed pool an address is a slot index; for the
dynamic pool it is a (block index, slot index) pair.  Only the `next`
links are modelled — live slots hold user data the pool never reads. -/

/-- Embeds the free-list threading of
`detail_::memory_pool_block::memory_pool_block(elementCount)`
(rad_memory_pool.h lines 42-60), for the single-block fixed pool:
`slot[i].next = &slot[i+1]`, last slot's next = null. -/
def initBlockLinks (k : ℕ) : List (Option ℕ) :=
  (List.range k).map fun i => if i + 1 < k then some (i + 1) else none

/-- State of a `fixed_memory_pool<T>`: the `next` links stored in the
block's slots, and `firstFreeElement_`. -/
structure FixedPool where
  links : List (Option ℕ)
  firstFree : Option ℕ
deriving DecidableEq, Repr

/-- Embeds `fixed_memory_pool::fixed_memory_pool(elementCount)`
(rad_memory_pool.h lines 112-116): builds one block of `k` threaded
slots and points `firstFreeElement_` at the first slot.  The block
constructor asserts `k > 0`. -/
def mkFixedPool (k : ℕ) : FixedPool :=
  ⟨initBlockLinks k, some 0⟩

/-- Embeds `fixed_memory_pool::allocate()` (rad_memory_pool.h lines
71-84): null if the free list is empty, otherwise pop the head. -/
def FixedPool.allocate (p : FixedPool) : Option ℕ × FixedPool :=
  match p.firstFree with
  | none => (none, p)
  | some a => (some a, { p with firstFree := p.links.getD a none })

/-- Embeds `fixed_memory_pool::deallocate(ptr)` (rad_memory_pool.h
lines 86-93): push the slot onto the head of the free list. -/
def FixedPool.deallocate (p : FixedPool) (a : ℕ) : FixedPool :=
  ⟨p.links.set a p.firstFree, some a⟩

/-- `n` successive `allocate()` calls, returning the results in order
together with the final pool state. -/
def FixedPool.allocN : ℕ → FixedPool → List (Option ℕ) × FixedPool
  | 0, p => ([], p)
  | n + 1, p =>
    let r := p.allocate
    let rest := FixedPool.allocN n r.2
    (r.1 :: rest.1, rest.2)

/-- Free-list threading of a freshly constructed dynamic-pool block
with index `b` and `k` slots (rad_memory_pool.h lines 42-60):
`slot[i].next = &slot[i+1]` within the same block, last = null. -/
def initBlockLinksD (b k : ℕ) : List (Option (ℕ × ℕ)) :=
  (List.range k).map fun i => if i + 1 < k then some (b, i + 1) else none

/-- State of a `dynamic_memory_pool<T>`: the ordered block sequence
(held by a `rad::vector`), `firstFreeElement_`, and the
construction-time per-block slot count. -/
structure DynPool where
  blocks : List (List (Option (ℕ × ℕ)))
  firstFree : Option (ℕ × ℕ)
  elementsPerBlock : ℕ
deriving DecidableEq, Repr

/-- Reading `element->next` of the slot at address `a`. -/
def DynPool.slotNext (p : DynPool) (a : ℕ × ℕ) : Option (ℕ × ℕ) :=
  (p.blocks.getD a.1 []).getD a.2 none

/-- Embeds `dynamic_memory_pool::allocate()` (rad_memory_pool.h lines
136-155): when the free list is empty, `blocks_.emplace_back(
elementsPerBlock_)` appends one freshly threaded block and `element`
becomes that block's first slot; otherwise `element` is the free-list
head.  Afterwards `firstFreeElement_ = element->next` and the slot's
address is returned (never null). -/
def DynPool.allocate (p : DynPool) : Option (ℕ × ℕ) × DynPool :=
  match p.firstFree with
  | none =>
    let b := p.blocks.length
    let q : DynPool :=
      { p with blocks := p.blocks ++ [initBlockLinksD b p.elementsPerBlock] }
    (some (b, 0), { q with firstFree := q.slotNext (b, 0) })
  | some a =>
    (some a, { p with firstFree := p.slotNext a })

/-! ## Vector cursor dynamics (rad_vector.h, emplace_back)

For the cursor-level claims the vector state is the three cursors plus
a bump-pointer model of the allocator (a growing reallocation obtains a
fresh block; its base address is the next free address).  `max_size()`
is the parameter `m`. -/

/-- Cursor-level vector state: the three cursors of `values_t_` as
addresses, plus the next fresh address the modelled allocator hands
out. -/
structure VecState where
  dataBegin : ℕ
  dataEnd : ℕ
  bufEnd : ℕ
  nextAlloc : ℕ
deriving DecidableEq, Repr

/-- `vector::size()`: `end() - begin()` (rad_vector.h lines 171-174). -/
def VecState.size (s : VecState) : ℕ :=
  s.dataEnd - s.dataBegin

/-- `vector::capacity()`: `bufEnd - begin()` (rad_vector.h lines
176-179). -/
def VecState.capacity (s : VecState) : ℕ :=
  s.bufEnd - s.dataBegin

/-- The cursor invariant of the array state (spec section 3):
data-begin ≤ data-end ≤ buffer-end. -/
def VecState.wf (s : VecState) : Prop :=
  s.dataBegin ≤ s.dataEnd ∧ s.dataEnd ≤ s.bufEnd

instance (s : VecState) : Decidable s.wf := by
  unfold VecState.wf
  infer_instance

/-- The default-constructed vector (rad_vector.h lines 345-349):
all cursors null. -/
def VecState.empty : VecState :=
  ⟨0, 0, 0, 1⟩

/-- Embeds `vector::emplace_back` (rad_vector.h lines 228-249) at the
cursor level, with `max_size()` equal to `m`.  When `dataEnd == bufEnd`
the buffer is reallocated to `compute_new_buf_count_(size() + 1)`
capacity (the grow path returns a fresh block whose base is the
modelled allocator's next address) and the cursors are rebased; then
the new element is constructed at `dataEnd`, which is incremented. -/
def VecState.emplaceBack (m : ℕ) (s : VecState) : VecState :=
  if s.dataEnd = s.bufEnd then
    let oldDataCount := s.size
    let newBufCount := computeNewBufCount s.capacity m (oldDataCount + 1)
    let base := s.nextAlloc
    { dataBegin := base
      dataEnd := base + oldDataCount + 1
      bufEnd := base + newBufCount
      nextAlloc := base + newBufCount + 1 }
  else
    { s with dataEnd := s.dataEnd + 1 }

/-- `n` successive `emplace_back` calls. -/
def VecState.emplaceN (m : ℕ) : ℕ → VecState → VecState
  | 0, s => s
  | n + 1, s => VecState.emplaceN m n (s.emplaceBack m)

/-! ## Vector contents: emplace_back and erase (rad_vector.h)

For the content-level claims the vector state is the list of live
element values plus the capacity.  `move_strong` (rad_object_utils.h
lines 281-297) is embedded as the literal assignment loop it performs
(for `int` elements, move assignment is nothrow and never fails). -/

/-- Content-level vector state: live elements (the range dataBegin to
dataEnd) and the capacity (bufEnd - dataBegin). -/
structure VecC where
  elems : List ℤ
  cap : ℕ
deriving DecidableEq, Repr

/-- `vector::size()` at the content level. -/
def VecC.size (s : VecC) : ℕ :=
  s.elems.length

/-- Embeds `vector::emplace_back(v)` at the content level with
`max_size()` equal to `m`: reallocate to
`compute_new_buf_count_(size() + 1)` capacity when full, then construct
`v` at the end cursor. -/
def VecC.emplaceBack (m : ℕ) (s : VecC) (v : ℤ) : VecC :=
  if s.elems.length = s.cap then
    { elems := s.elems ++ [v]
      cap := computeNewBufCount s.cap m (s.elems.length + 1) }
  else
    { s with elems := s.elems ++ [v] }

/-- The assignment loop of `move_strong(begin, end, dst)`
(rad_object_utils.h lines 288-294) acting on the element array `l`:
`fuel` is the length `end - begin` of the input range, `b` the index of
`begin`, `d` the index of `dst`.  Each step performs
`*dst = move_if_noexcept_assign_<T>(*begin)` (for nothrow-movable
element types the assigned value is the source value) and advances both
indices; the returned index models the returned output iterator. -/
def msLoop : ℕ → List ℤ → ℕ → ℕ → List ℤ × ℕ
  | 0, l, _, d => (l, d)
  | fuel + 1, l, b, d => msLoop fuel (l.set d (l.getD b 0)) (b + 1) (d + 1)

/-- Embeds `vector::erase(pos)` (rad_vector.h lines 261-291) at the
content level for the position with index `j`:
`move_strong(pos + 1, end(), pos)` shifts the following elements one
slot left, the returned iterator's slot is destroyed, `dataEnd` is set
to it, and `pos` (index `j`) is returned. -/
def VecC.eraseAt (s : VecC) (j : ℕ) : VecC × ℕ :=
  let n := s.elems.length
  let r := msLoop (n - (j + 1)) s.elems (j + 1) j
  ({ elems := r.1.take r.2, cap := s.cap }, j)

/-! ## Supporting lemmas -/

/-- Mapping every element to `none` yields a replicate of `none`. -/
lemma map_to_none {α : Type} (l : List α) :
    l.map (fun _ => (none : Option ℕ)) = List.replicate l.length none := by
  induction l with
  | nil => rfl
  | cons x xs ih => simp [ih, List.replicate_succ]

/-- Under the copy strategy the try loop leaves every source slot
intact, whether or not a construction throws. -/
lemma umsTryLoop_src_copy (t : CppType)
    (hc : moveIfNoexceptConstruct t = Strategy.copy) (fail : ℕ → Bool) :
    ∀ (src : List ℕ) (i : ℕ),
      (umsTryLoop t fail src i).src = src.map SrcSlot.intact := by
  intro src
  induction src with
  | nil => intro i; rfl
  | cons v rest ih =>
    intro i
    unfold umsTryLoop
    by_cases h : fail i && ctorCanThrow t
    · simp [h, failedSrcEffect, hc]
    · simp [h, relocSrcEffect, hc, ih]

/-- The failure index reported by the try loop is at least the loop's
starting index. -/
lemma umsTryLoop_thrownAt_ge (t : CppType) (fail : ℕ → Bool) :
    ∀ (src : List ℕ) (i j : ℕ),
      (umsTryLoop t fail src i).thrownAt = some j → i ≤ j := by
  intro src
  induction src with
  | nil => intro i j h; simp [umsTryLoop] at h
  | cons v rest ih =>
    intro i j h
    unfold umsTryLoop at h
    by_cases hf : fail i && ctorCanThrow t
    · simp [hf] at h
      omega
    · simp [hf] at h
      have := ih (i + 1) j h
      omega

/-- If the try loop throws, destroying the already-constructed
destination prefix leaves every destination slot unconstructed. -/
lemma umsTryLoop_dst_of_thrown (t : CppType) (fail : ℕ → Bool) :
    ∀ (src : List ℕ) (i j : ℕ),
      (umsTryLoop t fail src i).thrownAt = some j →
      ((umsTryLoop t fail src i).dst.take (j - i)).map (fun _ => (none : Option ℕ)) ++
          (umsTryLoop t fail src i).dst.drop (j - i) =
        List.replicate src.length none := by
  intro src
  induction src with
  | nil => intro i j h; simp [umsTryLoop] at h
  | cons v rest ih =>
    intro i j h
    unfold umsTryLoop at h ⊢
    by_cases hf : (fail i && ctorCanThrow t) = true
    · rw [if_pos hf] at h ⊢
      dsimp only at h ⊢
      obtain rfl : i = j := by simpa using h
      simp [map_to_none, List.replicate_succ]
    · rw [if_neg hf] at h ⊢
      dsimp only at h ⊢
      have hge := umsTryLoop_thrownAt_ge t fail rest (i + 1) j h
      have hj : j - i = (j - (i + 1)) + 1 := by omega
      rw [hj]
      simp only [List.take_succ_cons, List.map_cons, List.drop_succ_cons,
        List.cons_append, List.length_cons, List.replicate_succ]
      exact congrArg _ (ih (i + 1) j h)

/-! ## Claim theorems -/

/-- C1: per-element relocation strategy of `uninitialized_move_strong`:
move construction when nothrow-move-constructible, else copy
construction when available, else move with the guarantee waived; when
a relocation under a guaranteed-safe strategy can throw at all (the
copy fallback) and a construction does throw, every already-constructed
destination slot is destroyed before the exception propagates and every
source slot is left exactly as before the call. -/
theorem claim_C1_relocation_strategy_and_rollback
    (t : CppType) (fail : ℕ → Bool) (src : List ℕ) :
    (t.nothrowMoveCtor = true → moveIfNoexceptConstruct t = Strategy.move) ∧
    (t.nothrowMoveCtor = false → t.copyCtor = true →
      moveIfNoexceptConstruct t = Strategy.copy) ∧
    (t.nothrowMoveCtor = false → t.copyCtor = false →
      moveIfNoexceptConstruct t = Strategy.move) ∧
    (isNothrowUninitializedMovable t = true →
      (uninitializedMoveStrong t fail src).threw = false) ∧
    (moveIfNoexceptConstruct t = Strategy.copy →
      (uninitializedMoveStrong t fail src).threw = true →
      (uninitializedMoveStrong t fail src).src = src.map SrcSlot.intact ∧
      (uninitializedMoveStrong t fail src).dst =
        List.replicate src.length none) := by
  refine ⟨?_, ?_, ?_, ?_, ?_⟩
  · intro h
    simp [moveIfNoexceptConstruct, h]
  · intro h1 h2
    simp [moveIfNoexceptConstruct, h1, h2]
  · intro h1 h2
    simp [moveIfNoexceptConstruct, h1, h2]
  · intro h
    simp [uninitializedMoveStrong, h]
  · intro hc hthrew
    unfold uninitializedMoveStrong at hthrew ⊢
    by_cases hnt : isNothrowUninitializedMovable t
    · simp [hnt] at hthrew
    · simp only [hnt, Bool.false_eq_true, if_false] at hthrew ⊢
      rcases hj : (umsTryLoop t fail src 0).thrownAt with - | j
      · simp [hj] at hthrew
      · refine ⟨umsTryLoop_src_copy t hc fail src 0, ?_⟩
        have hd := umsTryLoop_dst_of_thrown t fail src 0 j hj
        simpa using hd

/-- C1 witness: a type with a throwing move constructor and a
(throwing) copy constructor selects the copy strategy; relocating
`[3, 4, 5]` with a failure at the second construction throws, rolls the
destination back to fully unconstructed, and leaves all sources
intact. -/
theorem claim_C1_witness :
    moveIfNoexceptConstruct ⟨false, true, false⟩ = Strategy.copy ∧
    (uninitializedMoveStrong ⟨false, true, false⟩
      (fun i => decide (i = 1)) [3, 4, 5]).threw = true ∧
    (uninitializedMoveStrong ⟨false, true, false⟩
      (fun i => decide (i = 1)) [3, 4, 5]).src = [3, 4, 5].map SrcSlot.intact ∧
    (uninitializedMoveStrong ⟨false, true, false⟩
      (fun i => decide (i = 1)) [3, 4, 5]).dst = List.replicate 3 none := by
  have h := claim_C1_relocation_strategy_and_rollback ⟨false, true, false⟩
    (fun i => decide (i = 1)) [3, 4, 5]
  obtain ⟨-, -, -, -, h5⟩ := h
  have h5i := h5 (by decide) (by decide)
  exact ⟨by decide, by decide, h5i.1, by simpa using h5i.2⟩

/-- C2 counterexample: with capacity 0, maximum size 10 and required
count 20 (> capacity), `compute_new_buf_count_` returns 20, not the
claimed value `min (max (0 + 0 / 2) 20) 10 = 10`: the required count is
not clamped to the maximum size. -/
theorem claim_C2_counterexample :
    computeNewBufCount 0 10 20 = 20 ∧
    min (max (0 + 0 / 2) 20) 10 = 10 ∧
    computeNewBufCount 0 10 20 ≠ min (max (0 + 0 / 2) 20) 10 := by
  refine ⟨by decide, by decide, by decide⟩

/-- C2 amended: for capacity `c ≤ m` and required count `n > c`, the
computed value is `m` when the geometric term overshoots the maximum
(`c + c / 2 > m`) and `max (c + c / 2) n` otherwise; consequently it
equals `max (c + c / 2) n` clamped to `m` whenever `n ≤ m`.  The result
is never below `c`, and the computation never overflows: the 64-bit
wrapping evaluation agrees with unbounded arithmetic whenever
`m < 2 ^ 63` (as `max_size()` is at most the maximum of
`difference_type`). -/
theorem claim_C2_amended_growth (c m n : ℕ) (hcm : c ≤ m) (hcn : c < n) :
    computeNewBufCount c m n
        = (if m < c + c / 2 then m else max (c + c / 2) n) ∧
    (n ≤ m → computeNewBufCount c m n = min (max (c + c / 2) n) m) ∧
    c ≤ computeNewBufCount c m n ∧
    (m < 2 ^ 63 → computeNewBufCount64 c m n = computeNewBufCount c m n) := by
  refine ⟨?_, ?_, ?_, ?_⟩
  · unfold computeNewBufCount
    by_cases h : m - c / 2 < c
    · rw [if_pos h, if_pos (by omega)]
    · rw [if_neg h, if_neg (by omega)]
  · intro hnm
    unfold computeNewBufCount
    by_cases h : m - c / 2 < c
    · rw [if_pos h]
      omega
    · rw [if_neg h]
      omega
  · unfold computeNewBufCount
    by_cases h : m - c / 2 < c
    · rw [if_pos h]
      exact hcm
    · rw [if_neg h]
      omega
  · intro hm
    unfold computeNewBufCount computeNewBufCount64 wsub64
    have h1 : (m + 2 ^ 64 - c / 2) % 2 ^ 64 = m - c / 2 := by omega
    have h2 : (c + c / 2) % 2 ^ 64 = c + c / 2 := by omega
    rw [h1, h2]

/-- C2 witness: capacity 4, maximum size 10, required count 5 (guard
off); and capacity 10, maximum size 12, required count 20 (guard on:
the result is the maximum size 12 even though the required count
exceeds it). -/
theorem claim_C2_witness :
    computeNewBufCount 4 10 5 = (if 10 < 4 + 4 / 2 then 10 else max (4 + 4 / 2) 5) ∧
    computeNewBufCount 4 10 5 = min (max (4 + 4 / 2) 5) 10 ∧
    4 ≤ computeNewBufCount 4 10 5 ∧
    computeNewBufCount64 4 10 5 = computeNewBufCount 4 10 5 ∧
    computeNewBufCount 10 12 20
        = (if 12 < 10 + 10 / 2 then 12 else max (10 + 10 / 2) 20) ∧
    computeNewBufCount 10 12 20 = 12 := by
  have h := claim_C2_amended_growth 4 10 5 (by decide) (by decide)
  have hg := claim_C2_amended_growth 10 12 20 (by decide) (by decide)
  exact ⟨h.1, h.2.1 (by decide), h.2.2.1, h.2.2.2 (by decide), hg.1, by decide⟩

/-- Length of `destroySlots`. -/
lemma destroySlots_length (l : List (Option ℕ)) (a b : ℕ) :
    (destroySlots l a b).length = l.length := by
  simp [destroySlots]

/-- Pointwise description of `destroySlots`. -/
lemma destroySlots_getD (l : List (Option ℕ)) (a b i : ℕ)
    (h : i < l.length) :
    (destroySlots l a b).getD i none =
      if a ≤ i ∧ i < b then none else l.getD i none := by
  have h' : i < (destroySlots l a b).length := by
    rw [destroySlots_length]
    exact h
  rw [List.getD_eq_getElem _ _ h']
  unfold destroySlots
  rw [List.getElem_map, List.getElem_range]

/-- C3 counterexample: on the trivially-copyable path of the adapter's
reallocate, a shrink from capacity 4 to capacity 2 is delegated to the
raw backend realloc, which physically resizes the block: the resulting
block holds 2 slots, not the old 4 — the claim's assertion that the
physical capacity is unchanged fails on this path. -/
theorem claim_C3_counterexample :
    reallocateTrivial [some 1, some 2, some 3, some 4] 2 = [some 1, some 2] ∧
    (reallocateTrivial [some 1, some 2, some 3, some 4] 2).length = 2 ∧
    (reallocateTrivial [some 1, some 2, some 3, some 4] 2).length ≠ 4 := by
  refine ⟨by decide, by decide, by decide⟩

/-- C3 amended: on the default element-wise path of the adapter's
reallocate (no allocator-supplied reallocate, non-trivially-copyable
value type, non-null block), a shrink (`newCount ≤ oldCount`, with
`oldAliveCount ≤ oldCount`) returns the same block, performs no element
relocation, keeps the physical capacity unchanged, destroys exactly the
live elements at positions `newCount` and beyond, and leaves all other
slots unchanged. -/
theorem claim_C3_amended_shrink (oldSlots : List (Option ℕ))
    (oldAliveCount oldCount newCount : ℕ)
    (hlen : oldSlots.length = oldCount)
    (halive : oldAliveCount ≤ oldCount)
    (hshrink : newCount ≤ oldCount) :
    (reallocateDefault oldSlots oldAliveCount oldCount newCount).sameBlock
        = true ∧
    (reallocateDefault oldSlots oldAliveCount oldCount newCount).moved = 0 ∧
    (reallocateDefault oldSlots oldAliveCount oldCount newCount).slots.length
        = oldCount ∧
    (∀ i, i < newCount →
      (reallocateDefault oldSlots oldAliveCount oldCount newCount).slots.getD
          i none = oldSlots.getD i none) ∧
    (∀ i, newCount ≤ i → i < oldAliveCount →
      (reallocateDefault oldSlots oldAliveCount oldCount newCount).slots.getD
          i none = none) ∧
    (∀ i, oldAliveCount ≤ i → i < oldCount →
      (reallocateDefault oldSlots oldAliveCount oldCount newCount).slots.getD
          i none = oldSlots.getD i none) := by
  have hng : ¬ oldCount < newCount := by omega
  unfold reallocateDefault
  rw [if_neg hng]
  by_cases hd : newCount < oldAliveCount
  · rw [if_pos hd]
    dsimp only
    refine ⟨rfl, rfl, by rw [destroySlots_length, hlen], ?_, ?_, ?_⟩
    · intro i hi
      rw [destroySlots_getD _ _ _ _ (by omega)]
      rw [if_neg (by omega)]
    · intro i hi1 hi2
      rw [destroySlots_getD _ _ _ _ (by omega)]
      rw [if_pos (by omega)]
    · intro i hi1 hi2
      rw [destroySlots_getD _ _ _ _ (by omega)]
      rw [if_neg (by omega)]
  · rw [if_neg hd]
    dsimp only
    refine ⟨rfl, rfl, hlen, ?_, ?_, ?_⟩
    · intro i hi
      rfl
    · intro i hi1 hi2
      omega
    · intro i hi1 hi2
      rfl

/-- C3 witness: shrinking a block of 4 slots holding 3 live elements to
capacity 1 keeps the block and destroys exactly the live elements at
positions 1 and 2. -/
theorem claim_C3_witness :
    (reallocateDefault [some 7, some 8, some 9, none] 3 4 1).sameBlock
        = true ∧
    (reallocateDefault [some 7, some 8, some 9, none] 3 4 1).moved = 0 ∧
    (reallocateDefault [some 7, some 8, some 9, none] 3 4 1).slots.length
        = 4 ∧
    (reallocateDefault [some 7, some 8, some 9, none] 3 4 1).slots.getD 0 none
        = some 7 ∧
    (reallocateDefault [some 7, some 8, some 9, none] 3 4 1).slots.getD 1 none
        = none ∧
    (reallocateDefault [some 7, some 8, some 9, none] 3 4 1).slots.getD 3 none
        = none := by
  have h := claim_C3_amended_shrink [some 7, some 8, some 9, none] 3 4 1
    (by decide) (by decide) (by decide)
  refine ⟨h.1, h.2.1, h.2.2.1, ?_, h.2.2.2.2.1 1 (by decide) (by decide), ?_⟩
  · have h4 := h.2.2.2.1 0 (by decide)
    simpa using h4
  · have h6 := h.2.2.2.2.2 3 (by decide) (by decide)
    simpa using h6

/-- C4: evaluation of the embedded move operations at a failing input.
`vector::operator=(vector&&)` executes the statement
`data_ = std::move(data_)` — a self-move — so the destination keeps its
own (now dangling) cursors instead of receiving the source's cursors
(0x100, 0x108, 0x110), while the source is reset to empty (its block
leaks); the move constructor, by contrast, does transfer the source's
cursors as the claim states. -/
theorem claim_C4_move_assign_self_move_bug :
    vectorMoveAssignValues ⟨0, 0, 0⟩ ⟨256, 264, 272⟩
        = (⟨0, 0, 0⟩, ⟨0, 0, 0⟩) ∧
    (vectorMoveAssignValues ⟨0, 0, 0⟩ ⟨256, 264, 272⟩).1
        ≠ ⟨256, 264, 272⟩ ∧
    vectorMoveConstructValues ⟨256, 264, 272⟩
        = (⟨256, 264, 272⟩, ⟨0, 0, 0⟩) := by
  refine ⟨rfl, by decide, rfl⟩

/-- C10: any two default allocators, over any pair of value types,
compare equal: `operator==` returns `true` and `operator!=` returns
`false`. -/
theorem claim_C10_default_allocator_equality :
    ∀ (T U : Type) (a : default_allocator T) (b : default_allocator U),
      defaultAllocatorEq a b = true ∧ defaultAllocatorNe a b = false := by
  intro T U a b
  exact ⟨rfl, rfl⟩

/-- C6: behavior of `stack_or_heap_memory::reallocate(size)` with
inline capacity `N`.  Heap-resident: the heap block is reallocated to
exactly `size` units (its leading `min(size, old)` units preserved) and
the buffer stays heap-resident, even when `size ≤ N`.  Inline-resident
with `size > N`: a fresh heap block of `size` units is obtained holding
exactly the `N` inline bytes followed by uninitialized space, and the
active pointer switches to it.  Inline-resident with `size ≤ N`: the
state is completely unchanged. -/
theorem claim_C6_hybrid_buffer_reallocate (N : ℕ) (s : StackOrHeapMemory)
    (size : ℕ) (hlen : s.stackMemory.length = N) :
    (∀ h, s.heapData = some h →
      (s.reallocate N size).heapData = some (rawRealloc h size) ∧
      (s.reallocate N size).isHeap = true ∧
      (rawRealloc h size).length = size ∧
      (∀ i, i < size → i < h.length →
        (rawRealloc h size).getD i none = h.getD i none) ∧
      (s.reallocate N size).stackMemory = s.stackMemory) ∧
    (s.heapData = none → N < size →
      (s.reallocate N size).heapData
          = some (s.stackMemory ++ List.replicate (size - N) none) ∧
      (s.reallocate N size).isHeap = true ∧
      (s.stackMemory ++ List.replicate (size - N) none).length = size ∧
      (∀ i, i < N →
        (s.stackMemory ++ List.replicate (size - N) none).getD i none
          = s.stackMemory.getD i none) ∧
      (∀ i, N ≤ i → i < size →
        (s.stackMemory ++ List.replicate (size - N) none).getD i none
          = none) ∧
      (s.reallocate N size).stackMemory = s.stackMemory) ∧
    (s.heapData = none → size ≤ N → s.reallocate N size = s) := by
  refine ⟨?_, ?_, ?_⟩
  · intro h hh
    unfold StackOrHeapMemory.reallocate
    rw [hh]
    refine ⟨rfl, rfl, ?_, ?_, rfl⟩
    · simp only [rawRealloc, List.length_append, List.length_take,
        List.length_replicate]
      omega
    · intro i h1 h2
      have hi : i < (h.take size).length := by
        simp only [List.length_take]
        omega
      unfold rawRealloc
      rw [List.getD_eq_getElem _ _ (by simp; omega),
        List.getD_eq_getElem _ _ h2]
      rw [List.getElem_append_left hi, List.getElem_take]
  · intro hh hsz
    unfold StackOrHeapMemory.reallocate
    rw [hh, if_pos hsz]
    have htake : s.stackMemory.take N = s.stackMemory := by
      rw [← hlen, List.take_length]
    refine ⟨by rw [htake], by simp [StackOrHeapMemory.isHeap, htake], ?_, ?_, ?_, rfl⟩
    · simp only [List.length_append, List.length_replicate]
      omega
    · intro i hi
      rw [List.getD_eq_getElem _ _ (by simp; omega),
        List.getD_eq_getElem _ _ (by omega)]
      exact List.getElem_append_left (by omega)
    · intro i h1 h2
      rw [List.getD_eq_getElem _ _ (by simp; omega)]
      rw [List.getElem_append_right (by omega)]
      exact List.getElem_replicate _ _
  · intro hh hsz
    unfold StackOrHeapMemory.reallocate
    rw [hh, if_neg (by omega)]

/-- C6 witness: with N = 2, an inline buffer holding bytes 5, 6 grows
to 5 units (heap promotion copying exactly the 2 inline bytes), an
inline buffer is untouched by a reallocation to 1 unit, and a
heap-resident buffer of 3 units reallocated down to 1 unit stays
heap-resident. -/
theorem claim_C6_witness :
    ((⟨[some 5, some 6], none⟩ : StackOrHeapMemory).reallocate 2 5).heapData
        = some [some 5, some 6, none, none, none] ∧
    ((⟨[some 5, some 6], none⟩ : StackOrHeapMemory).reallocate 2 1)
        = ⟨[some 5, some 6], none⟩ ∧
    ((⟨[some 5, some 6], some [some 1, some 2, some 3]⟩ :
        StackOrHeapMemory).reallocate 2 1).isHeap = true ∧
    ((⟨[some 5, some 6], some [some 1, some 2, some 3]⟩ :
        StackOrHeapMemory).reallocate 2 1).heapData = some [some 1] := by
  have hg := claim_C6_hybrid_buffer_reallocate 2
    ⟨[some 5, some 6], none⟩ 5 (by decide)
  have hn := claim_C6_hybrid_buffer_reallocate 2
    ⟨[some 5, some 6], none⟩ 1 (by decide)
  have hh := claim_C6_hybrid_buffer_reallocate 2
    ⟨[some 5, some 6], some [some 1, some 2, some 3]⟩ 1 (by decide)
  refine ⟨?_, hn.2.2 rfl (by decide), (hh.1 _ rfl).2.1, ?_⟩
  · have := (hg.2.1 rfl (by decide)).1
    simpa using this
  · have := (hh.1 _ rfl).1
    simpa using this

/-- Length of a freshly threaded dynamic-pool block. -/
lemma initBlockLinksD_length (b k : ℕ) :
    (initBlockLinksD b k).length = k := by
  simp [initBlockLinksD]

/-- The threaded `next` links of a freshly constructed dynamic-pool
block. -/
lemma initBlockLinksD_getD (b k i : ℕ) (h : i < k) :
    (initBlockLinksD b k).getD i none =
      if i + 1 < k then some (b, i + 1) else none := by
  have h' : i < (initBlockLinksD b k).length := by
    rw [initBlockLinksD_length]
    exact h
  rw [List.getD_eq_getElem _ _ h']
  unfold initBlockLinksD
  rw [List.getElem_map, List.getElem_range]

/-- C7: a `dynamic_memory_pool` allocation that finds the free list
empty appends exactly one new block of the construction-time per-block
slot count, threads its slots (`slot[i].next = slot[i+1]`, last null),
leaves the remaining new slots as the free list, and returns the new
block's first slot — a non-null address; moreover `allocate()` never
returns null for any pool state (exhaustion is never reported; only a
failing backend allocation, modelled as an exception, can make the call
fail). -/
theorem claim_C7_dynamic_pool_growth (p : DynPool)
    (hff : p.firstFree = none) (hk : 1 ≤ p.elementsPerBlock) :
    p.allocate.1 = some (p.blocks.length, 0) ∧
    p.allocate.2.blocks
        = p.blocks ++ [initBlockLinksD p.blocks.length p.elementsPerBlock] ∧
    p.allocate.2.blocks.length = p.blocks.length + 1 ∧
    (initBlockLinksD p.blocks.length p.elementsPerBlock).length
        = p.elementsPerBlock ∧
    (∀ i, i + 1 < p.elementsPerBlock →
      p.allocate.2.slotNext (p.blocks.length, i)
          = some (p.blocks.length, i + 1)) ∧
    p.allocate.2.slotNext (p.blocks.length, p.elementsPerBlock - 1)
        = none ∧
    p.allocate.2.firstFree
        = (if 1 < p.elementsPerBlock
            then some (p.blocks.length, 1) else none) ∧
    (∀ q : DynPool, q.allocate.1 ≠ none) := by
  have hblk : ∀ i : ℕ,
      ((p.blocks ++ [initBlockLinksD p.blocks.length p.elementsPerBlock]).getD
        p.blocks.length []).getD i none
      = (initBlockLinksD p.blocks.length p.elementsPerBlock).getD i none := by
    intro i
    have hb : (p.blocks ++
        [initBlockLinksD p.blocks.length p.elementsPerBlock]).getD
        p.blocks.length []
        = initBlockLinksD p.blocks.length p.elementsPerBlock := by
      rw [List.getD_eq_getElem _ _ (by simp)]
      rw [List.getElem_append_right (le_refl _)]
      simp
    rw [hb]
  unfold DynPool.allocate
  rw [hff]
  dsimp only [DynPool.slotNext]
  refine ⟨rfl, rfl, by simp, initBlockLinksD_length _ _, ?_, ?_, ?_, ?_⟩
  · intro i hi
    rw [hblk i, initBlockLinksD_getD _ _ _ (by omega), if_pos hi]
  · rw [hblk _, initBlockLinksD_getD _ _ _ (by omega),
      if_neg (by omega)]
  · rw [hblk 0, initBlockLinksD_getD _ _ _ (by omega)]
  · intro q
    rcases hq : q.firstFree with - | a
    · simp [DynPool.allocate, hq]
    · simp [DynPool.allocate, hq]

/-- C7 witness: a pool with one exhausted single-slot block and three
slots per block appends a block with slots (1,0) → (1,1) → (1,2) →
null, hands out (1,0), and leaves (1,1) at the head of the free
list. -/
theorem claim_C7_witness :
    (DynPool.allocate ⟨[[none]], none, 3⟩).1 = some (1, 0) ∧
    (DynPool.allocate ⟨[[none]], none, 3⟩).2.blocks
        = [[none]] ++ [initBlockLinksD 1 3] ∧
    (DynPool.allocate ⟨[[none]], none, 3⟩).2.firstFree = some (1, 1) ∧
    (DynPool.allocate ⟨[[none]], none, 3⟩).2.slotNext (1, 1) = some (1, 2) ∧
    (DynPool.allocate ⟨[[none]], none, 3⟩).2.slotNext (1, 2) = none := by
  have h := claim_C7_dynamic_pool_growth ⟨[[none]], none, 3⟩ rfl (by decide)
  refine ⟨h.1, h.2.1, ?_, ?_, ?_⟩
  · have := h.2.2.2.2.2.2.1
    simpa using this
  · exact h.2.2.2.2.1 1 (by decide)
  · have := h.2.2.2.2.2.1
    simpa using this

/-- The free-list head after `i` pops from a freshly threaded block of
`k` slots: slot `i` while any slots remain, null afterwards. -/
def freeFrom (k i : ℕ) : Option ℕ :=
  if i < k then some i else none

/-- The threaded `next` links of the fixed pool's block. -/
lemma initBlockLinks_getD (k i : ℕ) (h : i < k) :
    (initBlockLinks k).getD i none =
      if i + 1 < k then some (i + 1) else none := by
  have h' : i < (initBlockLinks k).length := by
    simp only [initBlockLinks, List.length_map, List.length_range]
    exact h
  rw [List.getD_eq_getElem _ _ h']
  unfold initBlockLinks
  rw [List.getElem_map, List.getElem_range]

/-- One allocation from a fixed pool whose free list stands at slot
`i < k` of the untouched initial threading. -/
lemma fixedPool_allocate_mid (k i : ℕ) (hik : i < k) :
    FixedPool.allocate ⟨initBlockLinks k, freeFrom k i⟩
      = (some i, ⟨initBlockLinks k, freeFrom k (i + 1)⟩) := by
  have hsome : freeFrom k i = some i := by
    simp [freeFrom, hik]
  have hnext : (initBlockLinks k).getD i none = freeFrom k (i + 1) := by
    rw [initBlockLinks_getD k i hik]
    rfl
  unfold FixedPool.allocate
  rw [hsome]
  dsimp only
  rw [hnext]

/-- Running `j` allocations from a fixed pool whose free list stands at
slot `i`, with `i + j ≤ k`: the results are slots `i, i+1, ...` and the
free list advances by `j`. -/
lemma fixedPool_allocN_mid (k : ℕ) :
    ∀ (j i : ℕ), i + j ≤ k →
      FixedPool.allocN j ⟨initBlockLinks k, freeFrom k i⟩
        = ((List.range' i j).map some,
           ⟨initBlockLinks k, freeFrom k (i + j)⟩) := by
  intro j
  induction j with
  | zero =>
    intro i h
    simp [FixedPool.allocN]
  | succ n ih =>
    intro i h
    unfold FixedPool.allocN
    rw [fixedPool_allocate_mid k i (by omega)]
    dsimp only
    rw [ih (i + 1) (by omega)]
    dsimp only
    rw [List.range'_succ, show i + 1 + n = i + (n + 1) by omega]
    rfl

/-- C8: a fixed pool constructed with `k ≥ 1` slots hands out, over the
first `k` allocations, `k` pairwise-distinct non-null slot addresses;
the `(k+1)`-th allocation returns null (exhaustion); and after
deallocating any slot of any pool state, the very next allocation
returns exactly that slot (LIFO reuse of the free-list head). -/
theorem claim_C8_fixed_pool_exhaustion_and_lifo (k : ℕ) (hk : 1 ≤ k) :
    (FixedPool.allocN k (mkFixedPool k)).1 = (List.range k).map some ∧
    (FixedPool.allocN k (mkFixedPool k)).1.Nodup ∧
    none ∉ (FixedPool.allocN k (mkFixedPool k)).1 ∧
    ((FixedPool.allocN k (mkFixedPool k)).2.allocate).1 = none ∧
    (∀ (q : FixedPool) (a : ℕ), ((q.deallocate a).allocate).1 = some a) := by
  have hmk : mkFixedPool k = ⟨initBlockLinks k, freeFrom k 0⟩ := by
    unfold mkFixedPool freeFrom
    rw [if_pos (by omega)]
  have hrun := fixedPool_allocN_mid k k 0 (by omega)
  rw [hmk, hrun]
  have hzk : freeFrom k (0 + k) = none := by
    simp [freeFrom]
  refine ⟨?_, ?_, ?_, ?_, ?_⟩
  · rw [List.range_eq_range']
  · dsimp only
    exact (List.nodup_range' _ _).map (Option.some_injective ℕ)
  · dsimp only
    simp
  · dsimp only
    rw [hzk]
    rfl
  · intro q a
    unfold FixedPool.deallocate FixedPool.allocate
    rfl

/-- C8 witness: the pool of the spec's concrete scenario, with 2 slots:
allocations return slots 0 and 1 (distinct, non-null), a third
allocation is exhausted, and deallocating slot 0 of the resulting state
makes the next allocation return slot 0 again. -/
theorem claim_C8_witness :
    (FixedPool.allocN 2 (mkFixedPool 2)).1 = [some 0, some 1] ∧
    ((FixedPool.allocN 2 (mkFixedPool 2)).2.allocate).1 = none ∧
    ((((FixedPool.allocN 2 (mkFixedPool 2)).2.deallocate 0).allocate)).1
        = some 0 := by
  have h := claim_C8_fixed_pool_exhaustion_and_lifo 2 (by decide)
  refine ⟨by simpa using h.1, h.2.2.2.1, h.2.2.2.2 _ 0⟩

/-- A well-formed vector state has `size() ≤ capacity()`. -/
lemma VecState.wf_size_le_capacity (s : VecState) (h : s.wf) :
    s.size ≤ s.capacity := by
  unfold VecState.wf at h
  unfold VecState.size VecState.capacity
  omega

/-- One `emplace_back` on a well-formed state with `capacity ≤ m` and
`size < m` preserves well-formedness, increments the size, never
shrinks the capacity, and keeps the capacity at most `m`. -/
lemma VecState.emplaceBack_step (m : ℕ) (s : VecState) (hwf : s.wf)
    (hcap : s.capacity ≤ m) (hsz : s.size < m) :
    (s.emplaceBack m).wf ∧
    (s.emplaceBack m).size = s.size + 1 ∧
    s.capacity ≤ (s.emplaceBack m).capacity ∧
    (s.emplaceBack m).capacity ≤ m := by
  unfold VecState.emplaceBack
  by_cases hfull : s.dataEnd = s.bufEnd
  · rw [if_pos hfull]
    have hsc : s.size = s.capacity := by
      unfold VecState.size VecState.capacity
      omega
    have hnb : s.size + 1 ≤ computeNewBufCount s.capacity m (s.size + 1) ∧
        computeNewBufCount s.capacity m (s.size + 1) ≤ m ∧
        s.capacity ≤ computeNewBufCount s.capacity m (s.size + 1) := by
      unfold computeNewBufCount
      by_cases hg : m - s.capacity / 2 < s.capacity
      · rw [if_pos hg]
        omega
      · rw [if_neg hg]
        omega
    simp only [VecState.wf, VecState.size, VecState.capacity] at hwf hnb ⊢
    omega
  · rw [if_neg hfull]
    simp only [VecState.wf, VecState.size, VecState.capacity]
      at hwf hcap hsz ⊢
    omega

/-- `n` calls to `emplace_back` from a well-formed state with room for
them: size grows by `n`, well-formedness is preserved, capacity never
shrinks and stays at most `m`. -/
lemma VecState.emplaceN_facts (m : ℕ) :
    ∀ (n : ℕ) (s : VecState), s.wf → s.capacity ≤ m → s.size + n ≤ m →
      (VecState.emplaceN m n s).wf ∧
      (VecState.emplaceN m n s).size = s.size + n ∧
      s.capacity ≤ (VecState.emplaceN m n s).capacity ∧
      (VecState.emplaceN m n s).capacity ≤ m := by
  intro n
  induction n with
  | zero =>
    intro s h1 h2 h3
    have e0 : VecState.emplaceN m 0 s = s := rfl
    rw [e0]
    exact ⟨h1, by omega, le_refl _, h2⟩
  | succ n ih =>
    intro s h1 h2 h3
    have e1 : VecState.emplaceN m (n + 1) s
        = VecState.emplaceN m n (s.emplaceBack m) := rfl
    rw [e1]
    have hstep := VecState.emplaceBack_step m s h1 h2 (by omega)
    have ihh := ih (s.emplaceBack m) hstep.1 hstep.2.2.2 (by omega)
    refine ⟨ihh.1, by omega, le_trans hstep.2.2.1 ihh.2.2.1, ihh.2.2.2⟩

/-- `emplaceN` composes: `a + b` calls are `b` calls followed by `a`
calls. -/
lemma VecState.emplaceN_add (m a : ℕ) :
    ∀ (b : ℕ) (s : VecState),
      VecState.emplaceN m (a + b) s
        = VecState.emplaceN m a (VecState.emplaceN m b s) := by
  intro b
  induction b with
  | zero => intro s; rfl
  | succ n ih =>
    intro s
    rw [show a + (n + 1) = (a + n) + 1 by omega]
    have e1 : VecState.emplaceN m ((a + n) + 1) s
        = VecState.emplaceN m (a + n) (s.emplaceBack m) := rfl
    have e2 : VecState.emplaceN m (n + 1) s
        = VecState.emplaceN m n (s.emplaceBack m) := rfl
    rw [e1, e2, ih (s.emplaceBack m)]

/-- C5: starting from any well-formed vector state with
`capacity() ≤ max_size()` and room for `n` more elements, a sequence of
`n` successful `emplace_back` calls increases `size()` by exactly one
per call (so by `n` overall; from the empty state `size()` equals the
number of calls), keeps the cursor invariant
data-begin ≤ data-end ≤ buffer-end (hence `size() ≤ capacity()`, with
size = data-end − data-begin and capacity = buffer-end − data-begin by
definition), keeps `capacity() ≤ max_size()`, and the capacity is
monotonically non-decreasing across the whole sequence. -/
theorem claim_C5_emplace_back_sequence (m n : ℕ) (s0 : VecState)
    (hwf : s0.wf) (hcap : s0.capacity ≤ m) (hn : s0.size + n ≤ m) :
    (VecState.emplaceN m n s0).size = s0.size + n ∧
    (VecState.emplaceN m n s0).wf ∧
    (VecState.emplaceN m n s0).size ≤ (VecState.emplaceN m n s0).capacity ∧
    (VecState.emplaceN m n s0).capacity ≤ m ∧
    (∀ j l, j ≤ l → l ≤ n →
      (VecState.emplaceN m j s0).capacity
        ≤ (VecState.emplaceN m l s0).capacity) := by
  have hmain := VecState.emplaceN_facts m n s0 hwf hcap hn
  refine ⟨hmain.2.1, hmain.1, (VecState.wf_size_le_capacity _ hmain.1),
    hmain.2.2.2, ?_⟩
  intro j l hjl hln
  have hj := VecState.emplaceN_facts m j s0 hwf hcap (by omega)
  have hcompose := VecState.emplaceN_add m (l - j) j s0
  rw [show (l - j) + j = l by omega] at hcompose
  have hl := VecState.emplaceN_facts m (l - j) (VecState.emplaceN m j s0)
    hj.1 hj.2.2.2 (by omega)
  rw [← hcompose] at hl
  exact hl.2.2.1

/-- C5 witness: five `emplace_back` calls on an empty vector with
`max_size()` 100 yield size 5, a well-formed state, capacity at least
the size and at most 100, and capacity non-decreasing between the first
and third call. -/
theorem claim_C5_witness :
    (VecState.emplaceN 100 5 VecState.empty).size = 0 + 5 ∧
    (VecState.emplaceN 100 5 VecState.empty).wf ∧
    (VecState.emplaceN 100 5 VecState.empty).size
      ≤ (VecState.emplaceN 100 5 VecState.empty).capacity ∧
    (VecState.emplaceN 100 5 VecState.empty).capacity ≤ 100 ∧
    (VecState.emplaceN 100 1 VecState.empty).capacity
      ≤ (VecState.emplaceN 100 3 VecState.empty).capacity := by
  have h := claim_C5_emplace_back_sequence 100 5 VecState.empty
    (by decide) (by decide) (by decide)
  exact ⟨h.1, h.2.1, h.2.2.1, h.2.2.2.1, h.2.2.2.2 1 3 (by decide) (by decide)⟩

/-- The `move_strong` assignment loop preserves the array length. -/
lemma msLoop_length :
    ∀ (fuel : ℕ) (l : List ℤ) (b d : ℕ),
      (msLoop fuel l b d).1.length = l.length := by
  intro fuel
  induction fuel with
  | zero => intro l b d; rfl
  | succ n ih =>
    intro l b d
    unfold msLoop
    rw [ih, List.length_set]

/-- The `move_strong` loop returns the output iterator advanced by the
input range's length. -/
lemma msLoop_ret :
    ∀ (fuel : ℕ) (l : List ℤ) (b d : ℕ),
      (msLoop fuel l b d).2 = d + fuel := by
  intro fuel
  induction fuel with
  | zero => intro l b d; rfl
  | succ n ih =>
    intro l b d
    unfold msLoop
    rw [ih]
    omega

/-- Pointwise description of the `move_strong` loop for a destination
strictly left of the source (the overlap pattern of `erase`): positions
`d ≤ i < d + fuel` receive the original value at `b + (i - d)`; all
other positions are untouched. -/
lemma msLoop_getD :
    ∀ (fuel : ℕ) (l : List ℤ) (b d i : ℕ), d < b →
      (msLoop fuel l b d).1.getD i 0 =
        if d ≤ i ∧ i < d + fuel then l.getD (b + (i - d)) 0
        else l.getD i 0 := by
  intro fuel
  induction fuel with
  | zero =>
    intro l b d i hdb
    rw [if_neg (by omega)]
    rfl
  | succ n ih =>
    intro l b d i hdb
    unfold msLoop
    rw [ih (l.set d (l.getD b 0)) (b + 1) (d + 1) i (by omega)]
    by_cases h1 : d + 1 ≤ i ∧ i < d + 1 + n
    · rw [if_pos h1, if_pos (by omega)]
      rw [show b + 1 + (i - (d + 1)) = b + (i - d) by omega]
      rw [List.getD_eq_getElem?_getD, List.getD_eq_getElem?_getD,
        List.getElem?_set_ne (by omega)]
      rw [List.getD_eq_getElem?_getD]
    · rw [if_neg h1]
      by_cases h2 : i = d
      · subst h2
        rw [if_pos (by omega)]
        rw [show b + (i - i) = b by omega]
        by_cases h3 : i < l.length
        · rw [List.getD_eq_getElem _ _ (by rw [List.length_set]; exact h3)]
          rw [List.getElem_set_self]
        · rw [List.getD_eq_default _ _ (by rw [List.length_set]; omega),
            List.getD_eq_default _ _ (by omega)]
      · rw [if_neg (by omega)]
        rw [List.getD_eq_getElem?_getD, List.getD_eq_getElem?_getD,
          List.getElem?_set_ne (by omega)]
        rw [List.getD_eq_getElem?_getD]

/-- The element array produced by `erase` is the original with the
element at the erased index removed. -/
lemma eraseAt_elems (s : VecC) (j : ℕ) (hj : j < s.elems.length) :
    (s.eraseAt j).1.elems = s.elems.take j ++ s.elems.drop (j + 1) := by
  unfold VecC.eraseAt
  dsimp only
  have hret := msLoop_ret (s.elems.length - (j + 1)) s.elems (j + 1) j
  have hlen := msLoop_length (s.elems.length - (j + 1)) s.elems (j + 1) j
  rw [hret]
  have hn1 : j + (s.elems.length - (j + 1)) = s.elems.length - 1 := by omega
  rw [hn1]
  refine List.ext_getElem ?_ ?_
  · rw [List.length_take_of_le (by rw [hlen]; omega)]
    simp only [List.length_append, List.length_take, List.length_drop]
    omega
  · intro i hi1 hi2
    rw [List.length_take_of_le (by rw [hlen]; omega)] at hi1
    have hgd : (List.take (s.elems.length - 1)
        (msLoop (s.elems.length - (j + 1)) s.elems (j + 1) j).1)[i]
        = (msLoop (s.elems.length - (j + 1)) s.elems (j + 1) j).1.getD i 0 := by
      rw [List.getElem_take]
      rw [List.getD_eq_getElem _ _ (by rw [hlen]; omega)]
    rw [hgd, msLoop_getD _ _ _ _ _ (by omega)]
    by_cases hcase : j ≤ i
    · rw [if_pos (by omega)]
      rw [show j + 1 + (i - j) = i + 1 by omega]
      rw [List.getD_eq_getElem _ _ (by omega)]
      rw [List.getElem_append_right (by rw [List.length_take_of_le (by omega)]; omega)]
      rw [List.getElem_drop]
      congr 1
      rw [List.length_take_of_le (by omega)]
      omega
    · rw [if_neg (by omega)]
      rw [List.getD_eq_getElem _ _ (by omega)]
      rw [List.getElem_append_left (by rw [List.length_take_of_le (by omega)]; omega)]
      exact (List.getElem_take _).symm

/-- C9: `erase(pos)` on a non-empty vector at the valid index `j`
shifts each element after `pos` one slot left (the resulting element
list is the original with index `j` removed), destroys the vacated
trailing slot, decrements the element count by one, leaves the capacity
unchanged, and returns the position `j`, which then holds the element
that followed (or is `end()` when the last element was erased).
Concretely, after `emplace_back` of 1..5 from empty and `erase` of the
third element, the sequence is [1, 2, 4, 5] with size 4 and the
capacity of the five-element vector unchanged. -/
theorem claim_C9_erase (s : VecC) (j : ℕ) (hj : j < s.elems.length) :
    (s.eraseAt j).1.elems = s.elems.take j ++ s.elems.drop (j + 1) ∧
    (s.eraseAt j).1.size = s.elems.length - 1 ∧
    (s.eraseAt j).1.cap = s.cap ∧
    (s.eraseAt j).2 = j ∧
    (j + 1 < s.elems.length →
      (s.eraseAt j).1.elems.getD j 0 = s.elems.getD (j + 1) 0) ∧
    (j + 1 = s.elems.length → (s.eraseAt j).2 = (s.eraseAt j).1.size) ∧
    (((List.foldl (VecC.emplaceBack (2 ^ 63 - 1)) ⟨[], 0⟩
        [1, 2, 3, 4, 5]).eraseAt 2).1.elems = [1, 2, 4, 5] ∧
      ((List.foldl (VecC.emplaceBack (2 ^ 63 - 1)) ⟨[], 0⟩
        [1, 2, 3, 4, 5]).eraseAt 2).1.size = 4 ∧
      ((List.foldl (VecC.emplaceBack (2 ^ 63 - 1)) ⟨[], 0⟩
        [1, 2, 3, 4, 5]).eraseAt 2).1.cap =
        (List.foldl (VecC.emplaceBack (2 ^ 63 - 1)) ⟨[], 0⟩
          [1, 2, 3, 4, 5]).cap) := by
  have helems := eraseAt_elems s j hj
  have hsize : (s.eraseAt j).1.size = s.elems.length - 1 := by
    unfold VecC.size
    rw [helems]
    simp only [List.length_append, List.length_take, List.length_drop]
    omega
  refine ⟨helems, hsize, rfl, rfl, ?_, ?_, by decide, by decide, by decide⟩
  · intro hj1
    rw [helems]
    have hlentake : (List.take j s.elems).length = j :=
      List.length_take_of_le (by omega)
    rw [List.getD_eq_getElem _ _ (by
      simp only [List.length_append, List.length_take, List.length_drop]
      omega)]
    rw [List.getElem_append_right (by rw [hlentake])]
    rw [List.getElem_drop]
    rw [List.getD_eq_getElem _ _ (by omega)]
    congr 1
    rw [hlentake]
    omega
  · intro hlast
    rw [hsize]
    unfold VecC.eraseAt
    dsimp only
    omega

/-- C9 witness: erasing index 1 of [10, 20, 30]. -/
theorem claim_C9_witness :
    ((⟨[10, 20, 30], 4⟩ : VecC).eraseAt 1).1.elems = [10, 30] ∧
    ((⟨[10, 20, 30], 4⟩ : VecC).eraseAt 1).1.size = 2 ∧
    ((⟨[10, 20, 30], 4⟩ : VecC).eraseAt 1).1.cap = 4 ∧
    ((⟨[10, 20, 30], 4⟩ : VecC).eraseAt 1).2 = 1 ∧
    ((⟨[10, 20, 30], 4⟩ : VecC).eraseAt 1).1.elems.getD 1 0 = 30 := by
  have h := claim_C9_erase ⟨[10, 20, 30], 4⟩ 1 (by decide)
  refine ⟨by simpa using h.1, h.2.1, h.2.2.1, h.2.2.2.1, ?_⟩
  have h5 := h.2.2.2.2.1 (by decide)
  simpa using h5

end LibRad
